import Mathlib

/-!
Shallow embedding of `src/main.rs` of the `todo` CLI (crate `4rneee/todo`).

Modelling conventions:
* A Rust `String` / `&str` is modelled as its character sequence `List Char`
  (abbreviated `Str`).
* `usize` is modelled as `Nat`; where wrap-around of `usize` arithmetic matters
  (the expression `id - 1` in the mutation loop of `main`) the wrapping is made
  explicit against `USIZE = 2 ^ 64`, and an out-of-bounds `Vec` index — a Rust
  panic — is modelled as `Option.none`.
* File I/O is modelled by passing the backing file's contents in and out of
  `runMain` explicitly: `runMain args file` takes the argument vector (including
  the program name, as `env::args` does) and the contents of the backing file
  (`none` = the file cannot be opened), and returns a `MainResult` describing
  the observable outcome, including the exact contents written back to the file
  on the mutating paths.
-/

/-- Rust `String` as its character sequence. -/
abbrev Str := List Char

/-- `struct TodoItem { name: String, done: bool }` -/
structure TodoItem where
  name : Str
  done : Bool
deriving DecidableEq, Repr

/-- `enum Command { LIST, ADD, DONE, UNDO, REMOVE, HELP }` -/
inductive Command where
  | LIST | ADD | DONE | UNDO | REMOVE | HELP
deriving DecidableEq, Repr

/-! ## The line parser (`parse_todos`, src/main.rs:202-231)

The regex is `\- \[([ X])\] (.*)`, used through `Regex::captures`, i.e. an
unanchored leftmost search over the line. -/

/-- One attempt of the regex `\- \[([ X])\] (.*)` at the current position:
the literal `- [`, one character from the class `[ X]`, the literal `] `,
then `(.*)` capturing the remaining characters (`.` does not match `\n`,
so capture group 2 stops at a newline). Returns the marker character and
the captured name on success. -/
def matchHere : Str → Option (Char × Str)
  | c1 :: c2 :: c3 :: m :: c5 :: c6 :: rest =>
      if c1 = '-' ∧ c2 = ' ' ∧ c3 = '[' ∧ (m = ' ' ∨ m = 'X') ∧ c5 = ']' ∧ c6 = ' '
      then some (m, rest.takeWhile (fun c => c ≠ '\n'))
      else none
  | _ => none

/-- `Regex::captures`: try the pattern at each position from the left and
return the first (leftmost) successful match. -/
def findTodoMatch : Str → Option (Char × Str)
  | [] => none
  | c :: rest =>
    match matchHere (c :: rest) with
    | some r => some r
    | none => findTodoMatch rest

/-- Parsing of a single line inside `parse_todos`: on a regex match the item's
`done` flag is `marker == "X"` and its `name` is capture group 2; a line with
no match is an `InvalidSyntax` error (modelled as `none`). -/
def parseLine (line : Str) : Option TodoItem :=
  (findTodoMatch line).map fun r => ⟨r.2, r.1 == 'X'⟩

/-- `BufRead::lines` strips the terminating `\n` of each line, and then a
trailing `\r` if one is present (CRLF handling). -/
def stripCR (l : Str) : Str :=
  if l.getLast? = some '\r' then l.dropLast else l

/-- Accumulator loop for `splitLines`; `acc` holds the characters of the
current (still unterminated) line in reverse order. -/
def splitLinesAux : Str → Str → List Str
  | [], acc => if acc = [] then [] else [acc.reverse]
  | c :: rest, acc =>
    if c = '\n' then stripCR acc.reverse :: splitLinesAux rest []
    else splitLinesAux rest (c :: acc)

/-- `BufRead::lines` over the whole file contents: split at each `\n`
(stripping the `\n` and a preceding `\r`); a final fragment not terminated by
`\n` is yielded as-is (no `\r` stripping); a trailing `\n` does not produce an
extra empty line, and the empty file yields no lines. -/
def splitLines (text : Str) : List Str :=
  splitLinesAux text []

/-- The per-line loop of `parse_todos`: `map`/`collect` over the lines,
stopping at the first line that fails to parse and reporting that line's raw
text (`ParseTodosError::InvalidSyntax`). -/
def parseLines : List Str → Except Str (List TodoItem)
  | [] => .ok []
  | l :: ls =>
    match parseLine l with
    | none => .error l
    | some t =>
      match parseLines ls with
      | .error e => .error e
      | .ok ts => .ok (t :: ts)

/-- `parse_todos` (src/main.rs:202-231) on the file's contents. `I/O` and
regex-compilation errors are outside the embedding (the regex literal is
valid, so `RegexError` never occurs); the error value is the offending line. -/
def parse_todos (content : Str) : Except Str (List TodoItem) :=
  parseLines (splitLines content)

/-! ## The serializer (`wirte_todos_to_file`, src/main.rs:233-247) -/

/-- One line written per item: `- [X] <name>\n` if done, `- [ ] <name>\n`
otherwise. -/
def serializeItem (t : TodoItem) : Str :=
  '-' :: ' ' :: '[' :: (if t.done then 'X' else ' ') :: ']' :: ' ' ::
    (t.name ++ ['\n'])

/-- `wirte_todos_to_file` (src/main.rs:233-247): the full contents written to
the backing file (the file is truncated first, so this is the complete new
file). -/
def wirte_todos_to_file (todos : List TodoItem) : Str :=
  (todos.map serializeItem).flatten

/-! ## Id parsing and validation (src/main.rs:141-169) -/

/-- Numeric value of an ASCII digit. -/
def digitVal (c : Char) : Option Nat :=
  if '0' ≤ c ∧ c ≤ '9' then some (c.toNat - '0'.toNat) else none

/-- `usize` wrap-around modulus. -/
def USIZE : Nat := 2 ^ 64

/-- Digit-accumulation loop of `usize::from_str` with its overflow check. -/
def parseDigitsAcc : Str → Nat → Option Nat
  | [], acc => some acc
  | c :: rest, acc =>
    match digitVal c with
    | none => none
    | some d =>
      if acc * 10 + d < USIZE then parseDigitsAcc rest (acc * 10 + d)
      else none

/-- `arg.parse::<usize>()`: an optional leading `+`, then one or more ASCII
digits, with overflow beyond `usize::MAX` a `ParseIntError` (`none`). -/
def parseUsize (s : Str) : Option Nat :=
  let digits := match s with
    | '+' :: rest => rest
    | _ => s
  if digits = [] then none else parseDigitsAcc digits 0

/-- `enum ParseIdsError { InvalidId(usize), ParseError(ParseIntError) }`;
the `ParseError` payload is modelled by the offending argument text. -/
inductive ParseIdsError where
  | InvalidId (id : Nat)
  | ParseError (arg : Str)
deriving DecidableEq, Repr

/-- The validation pass of `main` for done/undo/remove (src/main.rs:141-157):
each argument is parsed as a `usize` and checked against `x > todos.len()`;
`collect::<Result<_,_>>` stops at the first failing argument. Note the check
rejects only ids strictly greater than the length: `0` passes validation. -/
def parse_ids (len : Nat) : List Str → Except ParseIdsError (List Nat)
  | [] => .ok []
  | a :: rest =>
    match parseUsize a with
    | none => .error (.ParseError a)
    | some x =>
      if x > len then .error (.InvalidId x)
      else
        match parse_ids len rest with
        | .error e => .error e
        | .ok xs => .ok (x :: xs)

/-! ## Sorting and deduplication of ids (src/main.rs:171-173)

`ids.sort_by(|a, b| b.cmp(a))` sorts descending; on `usize` keys the result of
any correct descending sort is the same list, so a descending insertion sort is
an exact model. `ids.dedup()` then removes consecutive duplicates. -/

/-- Insert into a descending-sorted list keeping it descending. -/
def insertDesc (x : Nat) : List Nat → List Nat
  | [] => [x]
  | y :: ys => if y ≤ x then x :: y :: ys else y :: insertDesc x ys

/-- `ids.sort_by(|a, b| b.cmp(a))`: descending sort. -/
def sortDesc : List Nat → List Nat
  | [] => []
  | x :: xs => insertDesc x (sortDesc xs)

/-- `Vec::dedup`: removes consecutive duplicate elements. -/
def dedupAdj : List Nat → List Nat
  | [] => []
  | [x] => [x]
  | x :: y :: ys =>
    if x = y then dedupAdj (y :: ys) else x :: dedupAdj (y :: ys)

/-- The combined canonicalization applied to the ids before the mutation
loop. -/
def sortDescDedup (l : List Nat) : List Nat := dedupAdj (sortDesc l)

/-! ## The mutation loop (src/main.rs:175-190) -/

/-- The `for id in ids` loop. `todos[id - 1]` uses `usize` arithmetic: for
`id = 0` the index wraps to `USIZE - 1`; an index at or beyond the vector
length is a panic (`none`), as is the `panic!` arm for the non-id commands. -/
def applyIds (cmd : Command) : List Nat → List TodoItem → Option (List TodoItem)
  | [], todos => some todos
  | id :: rest, todos =>
    let idx := if id = 0 then USIZE - 1 else id - 1
    if h : idx < todos.length then
      match cmd with
      | .DONE => applyIds cmd rest (todos.set idx { todos.get ⟨idx, h⟩ with done := true })
      | .UNDO => applyIds cmd rest (todos.set idx { todos.get ⟨idx, h⟩ with done := false })
      | .REMOVE => applyIds cmd rest (todos.eraseIdx idx)
      | _ => none
    else none

/-! ## Command resolution (src/main.rs:56-74) -/

/-- `to_lowercase` restricted to ASCII (all command words are ASCII, and no
non-ASCII character lowercases to an ASCII letter of a command word). -/
def lowerChar (c : Char) : Char :=
  if 'A' ≤ c ∧ c ≤ 'Z' then Char.ofNat (c.toNat + 32) else c

/-- `args[1].to_lowercase()`. -/
def toLowerStr (s : Str) : Str := s.map lowerChar

/-- The `match args[1].to_lowercase().as_str()` of `main`; `none` is the
`invalid command` arm. -/
def resolveCommand (arg : Str) : Option Command :=
  let l := toLowerStr arg
  if l = "add".data then some .ADD
  else if l = "list".data then some .LIST
  else if l = "done".data then some .DONE
  else if l = "undo".data then some .UNDO
  else if l = "remove".data then some .REMOVE
  else if l = "help".data ∨ l = "-h".data ∨ l = "--help".data then some .HELP
  else none

/-! ## `main` (src/main.rs:53-200) -/

/-- Observable outcome of one invocation. Error constructors correspond to the
early-return `eprintln` paths of `main` (carrying exactly what those messages
name); `panicked` is a Rust panic; `listed` is the read-only `list` path;
`success` carries the final store (which `print_todos` renders) and the exact
contents written to the backing file. The backing file is written exactly on
the `success` outcome. -/
inductive MainResult where
  | invalidCommand (arg : Str)
  | helpShown
  | openFailed
  | parseFailure (line : Str)
  | noItemsToAdd
  | noIdsGiven
  | idParseFailed (arg : Str)
  | invalidId (id : Nat)
  | panicked
  | listed (todos : List TodoItem)
  | success (todos : List TodoItem) (written : Str)
deriving DecidableEq, Repr

/-- Command selection at the top of `main` (src/main.rs:56-74): `LIST` when no
argument is given, otherwise resolved from `args[1]`. -/
def commandOf (args : List Str) : Option Command :=
  if 1 < args.length then resolveCommand (args.getD 1 []) else some .LIST

/-- `main` (src/main.rs:53-200). `args` is the full argument vector including
the program name (`env::args`); `file` is the contents of the backing file,
`none` when opening it fails. The order of effects mirrors `main`: command
resolution, then `help`, then file open + `parse_todos`, then the per-command
logic, then `wirte_todos_to_file`. -/
def runMain (args : List Str) (file : Option Str) : MainResult :=
  match commandOf args with
  | none => .invalidCommand (args.getD 1 [])
  | some Command.HELP => .helpShown
  | some cmd =>
    match file with
    | none => .openFailed
    | some content =>
      match parse_todos content with
      | .error line => .parseFailure line
      | .ok todos =>
        match cmd with
        | .LIST => .listed todos
        | .HELP => .panicked
        | .ADD =>
          if args.length < 3 then .noItemsToAdd
          else
            let todos2 := todos ++ (args.drop 2).map (fun n => TodoItem.mk n false)
            .success todos2 (wirte_todos_to_file todos2)
        | _ =>
          if args.length < 3 then .noIdsGiven
          else
            match parse_ids todos.length (args.drop 2) with
            | .error (.ParseError a) => .idParseFailed a
            | .error (.InvalidId i) => .invalidId i
            | .ok ids =>
              match applyIds cmd (sortDescDedup ids) todos with
              | none => .panicked
              | some todos2 => .success todos2 (wirte_todos_to_file todos2)

/-- The contents written to the backing file by an invocation, `none` when the
file is not written. -/
def writtenFile : MainResult → Option Str
  | .success _ w => some w
  | _ => none

/-! ## Theorems -/

/-- C1 (code bug): the range check of `main` (src/main.rs:149) is only
`x > todos.len()`, so the id `0` passes validation; the mutation loop then
evaluates `todos[0 - 1]`, a `usize` underflow followed by an out-of-bounds
index, i.e. a panic — not the `Invalid id 0` error the spec requires. The
other half of the claimed range check does hold: an id greater than the store
length fails with `InvalidId` naming the value, and an id equal to the store
length is accepted. -/
theorem c1_id_zero_panics :
    runMain ["todo".data, "done".data, "0".data] (some ("- [ ] a\n").data)
      = .panicked ∧
    runMain ["todo".data, "done".data, "2".data] (some ("- [ ] a\n").data)
      = .invalidId 2 ∧
    runMain ["todo".data, "done".data, "1".data] (some ("- [ ] a\n").data)
      = .success [⟨"a".data, true⟩] ("- [X] a\n").data ∧
    MainResult.panicked ≠ MainResult.invalidId 0 := by
  refine ⟨by decide, by decide, by decide, by decide⟩

/-- C2 (counterexample): the regex is applied with an unanchored search, so a
line carrying extra text before `- [` — its first character is not even
`-`, so it cannot match the claimed anchored grammar — parses successfully
instead of failing. -/
theorem c2_counterexample :
    parse_todos ("x- [ ] a\n").data = .ok [⟨"a".data, false⟩] ∧
    ("x- [ ] a").data.head? ≠ some '-' := by
  exact ⟨rfl, by decide⟩

/-- C4 (counterexample): a name ending in a carriage return contains no
newline, yet does not survive the round-trip: `BufRead::lines` strips the
trailing `\r` of the serialized line, so parsing yields a different item. -/
theorem c4_counterexample :
    '\n' ∉ ("a\r").data ∧
    parse_todos (wirte_todos_to_file [⟨"a\r".data, false⟩])
      = .ok [⟨"a".data, false⟩] ∧
    (⟨"a".data, false⟩ : TodoItem) ≠ ⟨"a\r".data, false⟩ := by
  exact ⟨by decide, rfl, by decide⟩

/-- C9: `add` performs no validation of names — a name containing `\n` is
accepted and serialized verbatim, and the resulting backing file fails to
parse (the fragment after the embedded newline is a syntax error), so the
store no longer round-trips. -/
theorem c9_newline_breaks_roundtrip :
    runMain ["todo".data, "add".data, "a\nb".data] (some []) =
      .success [⟨"a\nb".data, false⟩] (wirte_todos_to_file [⟨"a\nb".data, false⟩]) ∧
    parse_todos (wirte_todos_to_file [⟨"a\nb".data, false⟩]) = .error "b".data := by
  exact ⟨rfl, rfl⟩

/-! ### Characterization of the line parser (C2) -/

theorem matchHere_isSome_iff (l : Str) :
    (matchHere l).isSome ↔
      ∃ m post, (m = ' ' ∨ m = 'X') ∧
        l = '-' :: ' ' :: '[' :: m :: ']' :: ' ' :: post := by
  constructor
  · intro h
    match l with
    | [] => simp [matchHere] at h
    | [c1] => simp [matchHere] at h
    | [c1, c2] => simp [matchHere] at h
    | [c1, c2, c3] => simp [matchHere] at h
    | [c1, c2, c3, c4] => simp [matchHere] at h
    | [c1, c2, c3, c4, c5] => simp [matchHere] at h
    | c1 :: c2 :: c3 :: m :: c5 :: c6 :: rest =>
      rw [matchHere] at h
      split_ifs at h with hc
      · obtain ⟨h1, h2, h3, hm, h5, h6⟩ := hc
        subst h1; subst h2; subst h3; subst h5; subst h6
        exact ⟨m, rest, hm, rfl⟩
      · simp at h
  · rintro ⟨m, post, hm, rfl⟩
    simp [matchHere, hm]

theorem matchHere_anchored (m : Char) (post : Str) (hm : m = ' ' ∨ m = 'X') :
    matchHere ('-' :: ' ' :: '[' :: m :: ']' :: ' ' :: post)
      = some (m, post.takeWhile (fun c => c ≠ '\n')) := by
  simp [matchHere, hm]

theorem findTodoMatch_isSome_iff (l : Str) :
    (findTodoMatch l).isSome ↔
      ∃ pre m post, (m = ' ' ∨ m = 'X') ∧
        l = pre ++ '-' :: ' ' :: '[' :: m :: ']' :: ' ' :: post := by
  induction l with
  | nil =>
    simp only [findTodoMatch]
    constructor
    · intro h; simp at h
    · rintro ⟨pre, m, post, hm, h⟩
      exact absurd h.symm (by simp)
  | cons c rest ih =>
    rw [findTodoMatch]
    rcases h : matchHere (c :: rest) with _ | r
    · simp only [Option.isSome_none]
      rw [ih]
      constructor
      · rintro ⟨pre, m, post, hm, hrest⟩
        exact ⟨c :: pre, m, post, hm, by rw [List.cons_append, hrest]⟩
      · rintro ⟨pre, m, post, hm, hl⟩
        match pre with
        | [] =>
          exfalso
          have : (matchHere (c :: rest)).isSome := by
            rw [matchHere_isSome_iff]
            exact ⟨m, post, hm, by simpa using hl⟩
          rw [h] at this; simp at this
        | c' :: pre' =>
          simp only [List.cons_append, List.cons.injEq] at hl
          exact ⟨pre', m, post, hm, hl.2⟩
    · simp only [Option.isSome_some, true_iff]
      have : (matchHere (c :: rest)).isSome := by rw [h]; rfl
      rw [matchHere_isSome_iff] at this
      obtain ⟨m, post, hm, hl⟩ := this
      exact ⟨[], m, post, hm, by simpa using hl⟩

theorem takeWhile_no_newline (l : Str) (h : ∀ c ∈ l, c ≠ '\n') :
    l.takeWhile (fun c => c ≠ '\n') = l := by
  induction l with
  | nil => rfl
  | cons c rest ih =>
    have hc : c ≠ '\n' := h c (by simp)
    have hr := ih (fun x hx => h x (by simp [hx]))
    simp [List.takeWhile_cons, hc, hr]
    exact fun x hx => h x (by simp [hx])

theorem parseLine_anchored (m : Char) (post : Str) (hm : m = ' ' ∨ m = 'X')
    (hpost : ∀ c ∈ post, c ≠ '\n') :
    parseLine ('-' :: ' ' :: '[' :: m :: ']' :: ' ' :: post)
      = some ⟨post, m == 'X'⟩ := by
  rw [parseLine, findTodoMatch]
  rw [show matchHere ('-' :: ' ' :: '[' :: m :: ']' :: ' ' :: post)
      = some (m, post.takeWhile (fun c => c ≠ '\n')) from matchHere_anchored m post hm]
  rw [takeWhile_no_newline post hpost]
  rfl

theorem parseLines_ok_of_all (ls : List Str) (h : ∀ l ∈ ls, (parseLine l).isSome) :
    ∃ ts, parseLines ls = .ok ts := by
  induction ls with
  | nil => exact ⟨[], rfl⟩
  | cons l rest ih =>
    rcases hl : parseLine l with _ | t
    · have hh := h l (by simp)
      rw [hl] at hh; simp at hh
    · obtain ⟨ts, hts⟩ := ih (fun x hx => h x (by simp [hx]))
      exact ⟨t :: ts, by simp [parseLines, hl, hts]⟩

theorem parseLines_first_error (good : List Str) (bad : Str) (rest : List Str)
    (hg : ∀ l ∈ good, (parseLine l).isSome) (hb : parseLine bad = none) :
    parseLines (good ++ bad :: rest) = .error bad := by
  induction good with
  | nil => simp [parseLines, hb]
  | cons l g ih =>
    rcases hl : parseLine l with _ | t
    · have hh := hg l (by simp)
      rw [hl] at hh; simp at hh
    · have hrec := ih (fun x hx => hg x (by simp [hx]))
      simp [parseLines, hl, hrec]

/-- C2 (amended): parsing a line succeeds iff the line *contains* an
occurrence of `- [<marker>] ` with marker a space or capital `X` — the regex
search is not anchored, so extra text before `- [` does not cause failure.
A line that begins with `- [<marker>] ` yields `done = (marker = X)` and
`name` = the rest of the line. Any line with no such occurrence produces a
syntax error carrying that line's raw text, and parsing aborts on the first
failing line with no partial result. -/
theorem c2_parser_grammar :
    (∀ l : Str, (parseLine l).isSome ↔
        ∃ pre m post, (m = ' ' ∨ m = 'X') ∧
          l = pre ++ '-' :: ' ' :: '[' :: m :: ']' :: ' ' :: post) ∧
    (∀ m post, (m = ' ' ∨ m = 'X') → (∀ c ∈ post, c ≠ '\n') →
        parseLine ('-' :: ' ' :: '[' :: m :: ']' :: ' ' :: post)
          = some ⟨post, m == 'X'⟩) ∧
    (∀ good bad rest, (∀ l ∈ good, (parseLine l).isSome) → parseLine bad = none →
        parseLines (good ++ bad :: rest) = .error bad) ∧
    (∀ ls, (∀ l ∈ ls, (parseLine l).isSome) → ∃ ts, parseLines ls = .ok ts) := by
  refine ⟨?_, parseLine_anchored, parseLines_first_error, parseLines_ok_of_all⟩
  intro l
  rw [← findTodoMatch_isSome_iff l, parseLine]
  cases findTodoMatch l <;> simp

/-- Witness for `c2_parser_grammar`: a concrete line for each proved
behaviour. -/
theorem c2_witness :
    parseLine ('-' :: ' ' :: '[' :: 'X' :: ']' :: ' ' :: "ab".data)
      = some ⟨"ab".data, 'X' == 'X'⟩ ∧
    parseLines ([("- [ ] a").data] ++ ("oops").data :: [])
      = .error ("oops").data := by
  exact ⟨c2_parser_grammar.2.1 'X' "ab".data (Or.inr rfl) (by decide),
         c2_parser_grammar.2.2.1 [("- [ ] a").data] ("oops").data []
           (by intro l hl; simp at hl; subst hl; decide) (by decide)⟩

/-! ### Round-trip (C4) -/

theorem splitLinesAux_append (l : Str) (h : ∀ c ∈ l, c ≠ '\n') :
    ∀ (acc rest : Str),
      splitLinesAux (l ++ '\n' :: rest) acc
        = stripCR (acc.reverse ++ l) :: splitLinesAux rest [] := by
  induction l with
  | nil =>
    intro acc rest
    simp [splitLinesAux]
  | cons c cs ih =>
    intro acc rest
    have hc : c ≠ '\n' := h c (by simp)
    rw [List.cons_append, splitLinesAux, if_neg hc,
      ih (fun x hx => h x (by simp [hx])) (c :: acc) rest]
    simp

theorem stripCR_of_no_cr (l : Str) (h : l.getLast? ≠ some '\r') :
    stripCR l = l := by
  rw [stripCR, if_neg h]

/-- C4 (amended): serializing a store and parsing the result back yields the
same sequence of items, for every store whose item names contain no newline
*and do not end in a carriage return* (a trailing `\r` is stripped together
with the line terminator when the file is read back, see
`c4_counterexample`). -/
theorem c4_roundtrip (ts : List TodoItem)
    (h : ∀ t ∈ ts, '\n' ∉ t.name ∧ t.name.getLast? ≠ some '\r') :
    parse_todos (wirte_todos_to_file ts) = .ok ts := by
  induction ts with
  | nil => rfl
  | cons t rest ih =>
    obtain ⟨hn, hr⟩ := h t (by simp)
    have hrec := ih (fun x hx => h x (by simp [hx]))
    rcases t with ⟨nm, dn⟩
    simp only at hn hr
    set m : Char := if dn then 'X' else ' ' with hm_def
    have hm : m = ' ' ∨ m = 'X' := by
      rw [hm_def]; cases dn
      · exact Or.inl rfl
      · exact Or.inr rfl
    have hmn : m ≠ '\n' := by
      rcases hm with h1 | h1 <;> rw [h1] <;> decide
    have hL : ∀ c ∈ '-' :: ' ' :: '[' :: m :: ']' :: ' ' :: nm, c ≠ '\n' := by
      intro c hc
      simp only [List.mem_cons] at hc
      rcases hc with rfl | rfl | rfl | rfl | rfl | rfl | hc
      · decide
      · decide
      · decide
      · exact hmn
      · decide
      · decide
      · exact fun he => hn (he ▸ hc)
    have hcontent : wirte_todos_to_file (⟨nm, dn⟩ :: rest)
        = ('-' :: ' ' :: '[' :: m :: ']' :: ' ' :: nm)
          ++ '\n' :: wirte_todos_to_file rest := by
      rw [wirte_todos_to_file, List.map_cons, List.flatten_cons]
      simp [serializeItem, hm_def, wirte_todos_to_file]
    have hsplit : splitLines (wirte_todos_to_file (⟨nm, dn⟩ :: rest))
        = stripCR ('-' :: ' ' :: '[' :: m :: ']' :: ' ' :: nm)
          :: splitLines (wirte_todos_to_file rest) := by
      rw [hcontent, splitLines, splitLinesAux_append _ hL]
      rfl
    have hstrip : stripCR ('-' :: ' ' :: '[' :: m :: ']' :: ' ' :: nm)
        = '-' :: ' ' :: '[' :: m :: ']' :: ' ' :: nm := by
      apply stripCR_of_no_cr
      match htn : nm with
      | [] => simp
      | c :: cs =>
        show (['-', ' ', '[', m, ']', ' '] ++ (c :: cs)).getLast? ≠ some '\r'
        rw [List.getLast?_append_cons]
        exact hr
    have hline : parseLine ('-' :: ' ' :: '[' :: m :: ']' :: ' ' :: nm)
        = some ⟨nm, m == 'X'⟩ :=
      parseLine_anchored m nm hm (fun c hc he => hn (he ▸ hc))
    have hitem : (⟨nm, m == 'X'⟩ : TodoItem) = ⟨nm, dn⟩ := by
      rw [hm_def]
      cases dn <;> rfl
    rw [parse_todos, hsplit, hstrip]
    rw [parse_todos] at hrec
    simp [parseLines, hline, hrec, hitem]

/-- Witness for `c4_roundtrip` at a concrete two-item store. -/
theorem c4_witness :
    parse_todos (wirte_todos_to_file
        [⟨"task1".data, false⟩, ⟨"task2".data, true⟩])
      = .ok [⟨"task1".data, false⟩, ⟨"task2".data, true⟩] :=
  c4_roundtrip [⟨"task1".data, false⟩, ⟨"task2".data, true⟩] (by decide)

/-! ### Canonicalization of ids and `remove` (C5) -/

theorem mem_insertDesc (a x : Nat) (l : List Nat) :
    a ∈ insertDesc x l ↔ a = x ∨ a ∈ l := by
  induction l with
  | nil => simp [insertDesc]
  | cons y ys ih =>
    rw [insertDesc]
    split_ifs with hy
    · simp
    · simp only [List.mem_cons, ih]
      tauto

theorem mem_sortDesc (a : Nat) (l : List Nat) : a ∈ sortDesc l ↔ a ∈ l := by
  induction l with
  | nil => simp [sortDesc]
  | cons x xs ih => simp [sortDesc, mem_insertDesc, ih]

theorem pairwise_insertDesc (x : Nat) (l : List Nat)
    (h : l.Pairwise (· ≥ ·)) : (insertDesc x l).Pairwise (· ≥ ·) := by
  induction l with
  | nil => simp [insertDesc]
  | cons y ys ih =>
    rw [insertDesc]
    rw [List.pairwise_cons] at h
    split_ifs with hy
    · rw [List.pairwise_cons]
      refine ⟨?_, List.pairwise_cons.mpr h⟩
      intro b hb
      rcases List.mem_cons.mp hb with rfl | hb
      · exact hy
      · exact le_trans (h.1 b hb) hy
    · rw [List.pairwise_cons]
      refine ⟨?_, ih h.2⟩
      intro b hb
      rcases (mem_insertDesc b x ys).mp hb with rfl | hb
      · exact le_of_not_le hy
      · exact h.1 b hb

theorem pairwise_sortDesc (l : List Nat) : (sortDesc l).Pairwise (· ≥ ·) := by
  induction l with
  | nil => simp [sortDesc]
  | cons x xs ih => exact pairwise_insertDesc x _ ih

theorem mem_dedupAdj (a : Nat) (l : List Nat) : a ∈ dedupAdj l ↔ a ∈ l := by
  induction l with
  | nil => simp [dedupAdj]
  | cons x xs ih =>
    cases xs with
    | nil => simp [dedupAdj]
    | cons y ys =>
      rw [dedupAdj]
      split_ifs with hxy
      · subst hxy
        rw [ih]
        simp
      · simp only [List.mem_cons, ih]

theorem pairwise_gt_dedupAdj (l : List Nat) (h : l.Pairwise (· ≥ ·)) :
    (dedupAdj l).Pairwise (· > ·) := by
  induction l with
  | nil => simp [dedupAdj]
  | cons x xs ih =>
    cases xs with
    | nil => simp [dedupAdj]
    | cons y ys =>
      rw [List.pairwise_cons] at h
      rw [dedupAdj]
      split_ifs with hxy
      · exact ih h.2
      · rw [List.pairwise_cons]
        refine ⟨?_, ih h.2⟩
        intro b hb
        have hb' : b ∈ y :: ys := (mem_dedupAdj b (y :: ys)).mp hb
        rcases List.mem_cons.mp hb' with rfl | hbys
        · exact lt_of_le_of_ne (h.1 b hb') (Ne.symm hxy)
        · have hyx : y < x := lt_of_le_of_ne (h.1 y (by simp)) (Ne.symm hxy)
          have hby : b ≤ y := (List.pairwise_cons.mp h.2).1 b hbys
          omega

theorem strictDesc_eq : ∀ l1 l2 : List Nat, l1.Pairwise (· > ·) →
    l2.Pairwise (· > ·) → (∀ a, a ∈ l1 ↔ a ∈ l2) → l1 = l2 := by
  intro l1
  induction l1 with
  | nil =>
    intro l2 _ _ hm
    cases l2 with
    | nil => rfl
    | cons y ys => exact absurd ((hm y).mpr (by simp)) (by simp)
  | cons x xs ih =>
    intro l2 h1 h2 hm
    cases l2 with
    | nil => exact absurd ((hm x).mp (by simp)) (by simp)
    | cons y ys =>
      rw [List.pairwise_cons] at h1 h2
      have hxy : x = y := by
        rcases List.mem_cons.mp ((hm x).mp (by simp)) with h | h
        · exact h
        · have hyx := h2.1 x h
          rcases List.mem_cons.mp ((hm y).mpr (by simp)) with h' | h'
          · omega
          · have := h1.1 y h'
            omega
      subst hxy
      congr 1
      apply ih ys h1.2 h2.2
      intro a
      constructor
      · intro ha
        have hax := h1.1 a ha
        rcases List.mem_cons.mp ((hm a).mp (by simp [ha])) with rfl | h
        · omega
        · exact h
      · intro ha
        have hax := h2.1 a ha
        rcases List.mem_cons.mp ((hm a).mpr (by simp [ha])) with rfl | h
        · omega
        · exact h

theorem sortDescDedup_pairwise (l : List Nat) :
    (sortDescDedup l).Pairwise (· > ·) :=
  pairwise_gt_dedupAdj _ (pairwise_sortDesc l)

theorem mem_sortDescDedup (a : Nat) (l : List Nat) :
    a ∈ sortDescDedup l ↔ a ∈ l := by
  rw [sortDescDedup, mem_dedupAdj, mem_sortDesc]

theorem sortDescDedup_congr (l1 l2 : List Nat) (hm : ∀ a, a ∈ l1 ↔ a ∈ l2) :
    sortDescDedup l1 = sortDescDedup l2 :=
  strictDesc_eq _ _ (sortDescDedup_pairwise l1) (sortDescDedup_pairwise l2)
    (fun a => by rw [mem_sortDescDedup, mem_sortDescDedup]; exact hm a)

theorem applyIds_remove_ok : ∀ (ids : List Nat) (todos : List TodoItem),
    (∀ i ∈ ids, 1 ≤ i ∧ i ≤ todos.length) → ids.Pairwise (· > ·) →
    ∃ ts, applyIds .REMOVE ids todos = some ts := by
  intro ids
  induction ids with
  | nil => exact fun todos _ _ => ⟨todos, rfl⟩
  | cons i rest ih =>
    intro todos hv hp
    obtain ⟨hi1, hi2⟩ := hv i (by simp)
    have hne : ¬ i = 0 := by omega
    have hidx : i - 1 < todos.length := by omega
    rw [applyIds]
    simp only [hne, if_false]
    rw [dif_pos hidx]
    apply ih (todos.eraseIdx (i - 1))
    · intro j hj
      obtain ⟨hj1, _⟩ := hv j (by simp [hj])
      have hji : j < i := (List.pairwise_cons.mp hp).1 j hj
      have hlen : (todos.eraseIdx (i - 1)).length = todos.length - 1 := by
        rw [List.length_eraseIdx, if_pos hidx]
      omega
    · exact (List.pairwise_cons.mp hp).2

/-- C5: for `remove`, the supplied ids are canonicalized by a descending sort
followed by deduplication, so the result depends only on the *set* of ids —
not their order or multiplicity — and with all ids in `1..=length` the
removal loop succeeds; in particular `remove 1 3` on a three-item store
leaves exactly the middle item, however the ids are supplied. -/
theorem c5_remove_canonical (todos : List TodoItem) (l1 l2 : List Nat)
    (hv : ∀ i ∈ l1, 1 ≤ i ∧ i ≤ todos.length)
    (hm : ∀ a, a ∈ l1 ↔ a ∈ l2) :
    (∃ ts, applyIds .REMOVE (sortDescDedup l1) todos = some ts ∧
           applyIds .REMOVE (sortDescDedup l2) todos = some ts) ∧
    (∀ a b c : TodoItem,
        applyIds .REMOVE (sortDescDedup [1, 3]) [a, b, c] = some [b] ∧
        applyIds .REMOVE (sortDescDedup [3, 1]) [a, b, c] = some [b] ∧
        applyIds .REMOVE (sortDescDedup [1, 1, 3]) [a, b, c] = some [b]) ∧
    runMain ["todo".data, "remove".data, "1".data, "3".data]
        (some ("- [ ] a\n- [ ] b\n- [ ] c\n").data)
      = .success [⟨"b".data, false⟩] ("- [ ] b\n").data ∧
    runMain ["todo".data, "remove".data, "3".data, "1".data]
        (some ("- [ ] a\n- [ ] b\n- [ ] c\n").data)
      = .success [⟨"b".data, false⟩] ("- [ ] b\n").data ∧
    runMain ["todo".data, "remove".data, "1".data, "1".data, "3".data]
        (some ("- [ ] a\n- [ ] b\n- [ ] c\n").data)
      = .success [⟨"b".data, false⟩] ("- [ ] b\n").data := by
  refine ⟨?_, fun a b c => ⟨rfl, rfl, rfl⟩, by decide, by decide, by decide⟩
  have hcan : sortDescDedup l1 = sortDescDedup l2 := sortDescDedup_congr l1 l2 hm
  have hv' : ∀ i ∈ sortDescDedup l1, 1 ≤ i ∧ i ≤ todos.length :=
    fun i hi => hv i ((mem_sortDescDedup i l1).mp hi)
  obtain ⟨ts, hts⟩ :=
    applyIds_remove_ok (sortDescDedup l1) todos hv' (sortDescDedup_pairwise l1)
  exact ⟨ts, hts, by rw [← hcan]; exact hts⟩

/-- Witness for `c5_remove_canonical`: `remove` with ids `1 3` and `3 1` on a
concrete three-item store produces the same store. -/
theorem c5_witness :
    ∃ ts, applyIds .REMOVE (sortDescDedup [1, 3])
        [⟨"a".data, false⟩, ⟨"b".data, false⟩, ⟨"c".data, false⟩] = some ts ∧
      applyIds .REMOVE (sortDescDedup [3, 1])
        [⟨"a".data, false⟩, ⟨"b".data, false⟩, ⟨"c".data, false⟩] = some ts :=
  (c5_remove_canonical
    [⟨"a".data, false⟩, ⟨"b".data, false⟩, ⟨"c".data, false⟩] [1, 3] [3, 1]
    (by decide)
    (by intro a; simp only [List.mem_cons, List.not_mem_nil, or_false]; tauto)).1

/-! ### Frame property of `done` / `undo` (C8) -/

theorem applyIds_flags (b : Bool) : ∀ (ids : List Nat) (todos : List TodoItem),
    (∀ i ∈ ids, 1 ≤ i ∧ i ≤ todos.length) →
    ∃ ts, applyIds (if b then .DONE else .UNDO) ids todos = some ts ∧
      ts.length = todos.length ∧
      ∀ j : Nat, ts[j]? = (todos[j]?).map
        (fun t => if j + 1 ∈ ids then ⟨t.name, b⟩ else t) := by
  intro ids
  induction ids with
  | nil =>
    intro todos _
    refine ⟨todos, by cases b <;> rfl, rfl, ?_⟩
    intro j
    cases todos[j]? <;> simp
  | cons i rest ih =>
    intro todos hv
    obtain ⟨hi1, hi2⟩ := hv i (by simp)
    have hne : ¬ i = 0 := by omega
    have hidx : i - 1 < todos.length := by omega
    have hstep : applyIds (if b then .DONE else .UNDO) (i :: rest) todos
        = applyIds (if b then .DONE else .UNDO) rest
            (todos.set (i - 1) ⟨(todos.get ⟨i - 1, hidx⟩).name, b⟩) := by
      cases b
      · rw [applyIds]
        simp only [hne, if_false]
        rw [dif_pos hidx]
        rfl
      · rw [applyIds]
        simp only [hne, if_false]
        rw [dif_pos hidx]
        rfl
    obtain ⟨ts, hts, hlen, hget⟩ :=
      ih (todos.set (i - 1) ⟨(todos.get ⟨i - 1, hidx⟩).name, b⟩)
        (by
          intro j hj
          obtain ⟨hj1, hj2⟩ := hv j (by simp [hj])
          rw [List.length_set]
          exact ⟨hj1, hj2⟩)
    refine ⟨ts, by rw [hstep]; exact hts, by rw [hlen, List.length_set], ?_⟩
    intro j
    rw [hget j]
    by_cases hj : j = i - 1
    · subst hj
      have h1 : (todos.set (i - 1) ⟨(todos.get ⟨i - 1, hidx⟩).name, b⟩)[i - 1]?
          = some ⟨(todos.get ⟨i - 1, hidx⟩).name, b⟩ :=
        List.getElem?_set_self hidx
      have h2 : todos[i - 1]? = some (todos.get ⟨i - 1, hidx⟩) := by
        rw [List.getElem?_eq_getElem hidx]
        rfl
      have h3 : i - 1 + 1 = i := by omega
      rw [h1, h2, h3]
      simp
    · have hne' : i - 1 ≠ j := fun he => hj he.symm
      have h1 : (todos.set (i - 1) ⟨(todos.get ⟨i - 1, hidx⟩).name, b⟩)[j]?
          = todos[j]? := List.getElem?_set_ne hne'
      have hmem : (j + 1 ∈ i :: rest) ↔ (j + 1 ∈ rest) := by
        simp only [List.mem_cons, or_iff_right_iff_imp]
        intro he
        omega
      rw [h1]
      simp only [hmem]

/-- C8: for `done` (marker `b = true`) and `undo` (`b = false`) with ids all
in `1..=length`, the loop succeeds and the result is characterized pointwise:
the item at 0-based position `j` keeps its name, keeps its `done` flag when
`j+1` is not among the supplied ids, and has its flag set to `b` when it is;
length (and hence order) is preserved. In particular `done 2` on a two-item
store only marks the second item. -/
theorem c8_done_undo_frame (todos : List TodoItem) (ids : List Nat) (b : Bool)
    (hv : ∀ i ∈ ids, 1 ≤ i ∧ i ≤ todos.length) :
    (∃ ts, applyIds (if b then .DONE else .UNDO) (sortDescDedup ids) todos
        = some ts ∧
      ts.length = todos.length ∧
      ∀ j : Nat, ts[j]? = (todos[j]?).map
        (fun t => if j + 1 ∈ ids then ⟨t.name, b⟩ else t)) ∧
    (∀ t1 t2 : TodoItem,
        applyIds .DONE (sortDescDedup [2]) [t1, t2] = some [t1, ⟨t2.name, true⟩] ∧
        applyIds .UNDO (sortDescDedup [2]) [t1, t2] = some [t1, ⟨t2.name, false⟩]) := by
  refine ⟨?_, fun t1 t2 => ⟨rfl, rfl⟩⟩
  obtain ⟨ts, hts, hlen, hget⟩ := applyIds_flags b (sortDescDedup ids) todos
    (fun i hi => hv i ((mem_sortDescDedup i ids).mp hi))
  refine ⟨ts, hts, hlen, ?_⟩
  intro j
  rw [hget j]
  simp only [mem_sortDescDedup]

/-- Witness for `c8_done_undo_frame`: `done 2` on a concrete two-item store. -/
theorem c8_witness :
    ∃ ts, applyIds (if true then Command.DONE else Command.UNDO)
        (sortDescDedup [2]) [⟨"a".data, false⟩, ⟨"b".data, false⟩] = some ts ∧
      ts.length = [(⟨"a".data, false⟩ : TodoItem), ⟨"b".data, false⟩].length ∧
      ∀ j : Nat, ts[j]? =
        ([(⟨"a".data, false⟩ : TodoItem), ⟨"b".data, false⟩][j]?).map
          (fun t => if j + 1 ∈ [2] then ⟨t.name, true⟩ else t) :=
  (c8_done_undo_frame [⟨"a".data, false⟩, ⟨"b".data, false⟩] [2] true
    (by decide)).1

/-! ### Validation happens before any mutation (C3) -/

theorem commandOf_cons (prog w : Str) (rest : List Str) :
    commandOf (prog :: w :: rest) = resolveCommand w := by
  rw [commandOf]
  have h : 1 < (prog :: w :: rest).length := by simp
  rw [if_pos h]
  rfl

theorem runMain_id_cmd (prog w : Str) (idArgs : List Str) (content : Str)
    (todos : List TodoItem) (cmd : Command)
    (hc : resolveCommand w = some cmd)
    (hcmd : cmd = .DONE ∨ cmd = .UNDO ∨ cmd = .REMOVE)
    (hp : parse_todos content = .ok todos)
    (hne : idArgs ≠ []) :
    runMain (prog :: w :: idArgs) (some content) =
      match parse_ids todos.length idArgs with
      | .error (.ParseError a) => .idParseFailed a
      | .error (.InvalidId i) => .invalidId i
      | .ok ids =>
        match applyIds cmd (sortDescDedup ids) todos with
        | none => .panicked
        | some todos2 => .success todos2 (wirte_todos_to_file todos2) := by
  have hlen3 : ¬ (prog :: w :: idArgs).length < 3 := by
    cases idArgs with
    | nil => exact absurd rfl hne
    | cons _ _ => simp
  rcases hcmd with rfl | rfl | rfl <;>
    simp only [runMain, commandOf_cons, hc, hp, hlen3, if_false,
      List.drop_succ_cons, List.drop_zero]

theorem parse_ids_error_of_bad (len : Nat) : ∀ (args : List Str),
    (∃ a ∈ args, parseUsize a = none ∨ ∃ x, parseUsize a = some x ∧ x > len) →
    ∃ e, parse_ids len args = .error e := by
  intro args
  induction args with
  | nil =>
    rintro ⟨a, ha, _⟩
    simp at ha
  | cons a rest ih =>
    rintro ⟨a', ha', hbad⟩
    rcases hp : parseUsize a with _ | x
    · exact ⟨.ParseError a, by simp [parse_ids, hp]⟩
    · by_cases hx : x > len
      · exact ⟨.InvalidId x, by simp [parse_ids, hp, hx]⟩
      · rcases List.mem_cons.mp ha' with rfl | hmem
        · rcases hbad with hb | ⟨x', hx', hgt⟩
          · rw [hp] at hb
            exact absurd hb (by simp)
          · rw [hp] at hx'
            injection hx' with hxx
            omega
        · obtain ⟨e, he⟩ := ih ⟨a', hmem, hbad⟩
          exact ⟨e, by simp [parse_ids, hp, hx, he]⟩

theorem parse_ids_ok_mem (len : Nat) : ∀ (args : List Str),
    (∀ a ∈ args, ∃ x, parseUsize a = some x ∧ x ≤ len) →
    ∃ ids, parse_ids len args = .ok ids ∧
      ∀ a ∈ args, ∀ x, parseUsize a = some x → x ∈ ids := by
  intro args
  induction args with
  | nil => exact fun _ => ⟨[], rfl, by simp⟩
  | cons a rest ih =>
    intro hg
    obtain ⟨x, hx, hle⟩ := hg a (by simp)
    obtain ⟨ids, hids, hmem⟩ := ih (fun a' ha' => hg a' (by simp [ha']))
    refine ⟨x :: ids, ?_, ?_⟩
    · have hngt : ¬ x > len := by omega
      simp [parse_ids, hx, hngt, hids]
    · intro a' ha' x' hx'
      rcases List.mem_cons.mp ha' with rfl | hmem'
      · rw [hx] at hx'
        injection hx' with hxx
        simp [hxx]
      · simp [hmem a' hmem' x' hx']

theorem applyIds_zero_panics (cmd : Command) : ∀ (l : List Nat) (todos : List TodoItem),
    0 ∈ l → todos.length < USIZE → applyIds cmd l todos = none := by
  intro l
  induction l with
  | nil =>
    intro todos h
    simp at h
  | cons i rest ih =>
    intro todos hmem hlen
    by_cases hi : i = 0
    · subst hi
      rw [applyIds]
      have hnlt : ¬ ((if (0 : Nat) = 0 then USIZE - 1 else 0 - 1) < todos.length) := by
        rw [if_pos rfl]
        have hpos : 0 < USIZE := by rw [USIZE]; positivity
        omega
      rw [dif_neg hnlt]
    · have hmem' : 0 ∈ rest := by
        rcases List.mem_cons.mp hmem with h | h
        · exact absurd h.symm hi
        · exact h
      rw [applyIds]
      simp only [hi, if_false]
      by_cases hidx : i - 1 < todos.length
      · rw [dif_pos hidx]
        cases cmd
        · rfl
        · rfl
        · exact ih _ hmem' (by rw [List.length_set]; exact hlen)
        · exact ih _ hmem' (by rw [List.length_set]; exact hlen)
        · refine ih _ hmem' ?_
          rw [List.length_eraseIdx, if_pos hidx]
          omega
        · rfl
      · rw [dif_neg hidx]

/-- C3: for done/undo/remove, all id arguments are validated before anything
is mutated: if any id argument fails to parse as a `usize` or denotes a
position outside `1..=length`, the invocation ends in a failure (an id parse
error, an `Invalid id` report, or — for the unchecked id `0` — a panic inside
the loop) and the backing file is never written. -/
theorem c3_validation_before_mutation (prog w content : Str)
    (idArgs : List Str) (todos : List TodoItem) (cmd : Command)
    (hc : resolveCommand w = some cmd)
    (hcmd : cmd = .DONE ∨ cmd = .UNDO ∨ cmd = .REMOVE)
    (hp : parse_todos content = .ok todos)
    (hlen : todos.length < USIZE)
    (hbad : ∃ a ∈ idArgs, parseUsize a = none ∨
        ∃ x, parseUsize a = some x ∧ ¬(1 ≤ x ∧ x ≤ todos.length)) :
    writtenFile (runMain (prog :: w :: idArgs) (some content)) = none ∧
    ((∃ a, runMain (prog :: w :: idArgs) (some content) = .idParseFailed a) ∨
     (∃ i, runMain (prog :: w :: idArgs) (some content) = .invalidId i) ∨
     runMain (prog :: w :: idArgs) (some content) = .panicked) := by
  have hne : idArgs ≠ [] := by
    obtain ⟨a, ha, _⟩ := hbad
    intro h
    rw [h] at ha
    simp at ha
  have hred := runMain_id_cmd prog w idArgs content todos cmd hc hcmd hp hne
  by_cases hA : ∃ a ∈ idArgs, parseUsize a = none ∨
      ∃ x, parseUsize a = some x ∧ x > todos.length
  · obtain ⟨e, he⟩ := parse_ids_error_of_bad todos.length idArgs hA
    rw [he] at hred
    cases e with
    | ParseError a =>
      rw [hred]
      exact ⟨rfl, Or.inl ⟨a, rfl⟩⟩
    | InvalidId i =>
      rw [hred]
      exact ⟨rfl, Or.inr (Or.inl ⟨i, rfl⟩)⟩
  · push_neg at hA
    have hgood : ∀ a ∈ idArgs, ∃ x, parseUsize a = some x ∧ x ≤ todos.length := by
      intro a ha
      obtain ⟨hnn, hbound⟩ := hA a ha
      rcases hv : parseUsize a with _ | x
      · exact absurd hv hnn
      · exact ⟨x, rfl, hbound x hv⟩
    obtain ⟨ids, hids, hmemids⟩ := parse_ids_ok_mem todos.length idArgs hgood
    obtain ⟨a, ha, hcase⟩ := hbad
    have hzero : (0 : Nat) ∈ ids := by
      rcases hcase with hn | ⟨x, hx, hxr⟩
      · exact absurd hn (hA a ha).1
      · have hxle : x ≤ todos.length := (hA a ha).2 x hx
        have hx0 : x = 0 := by omega
        rw [hx0] at hx
        exact hmemids a ha 0 hx
    have hpanic : applyIds cmd (sortDescDedup ids) todos = none :=
      applyIds_zero_panics cmd (sortDescDedup ids) todos
        ((mem_sortDescDedup 0 ids).mpr hzero) hlen
    have hred2 : runMain (prog :: w :: idArgs) (some content)
        = match applyIds cmd (sortDescDedup ids) todos with
          | none => MainResult.panicked
          | some todos2 => MainResult.success todos2 (wirte_todos_to_file todos2) := by
      rw [hids] at hred
      exact hred
    rw [hpanic] at hred2
    rw [hred2]
    exact ⟨rfl, Or.inr (Or.inr rfl)⟩

/-- Witness for `c3_validation_before_mutation`: `done x` on a one-item
store. -/
theorem c3_witness :
    writtenFile (runMain ["todo".data, "done".data, "x".data]
      (some ("- [ ] a\n").data)) = none ∧
    ((∃ a, runMain ["todo".data, "done".data, "x".data]
        (some ("- [ ] a\n").data) = .idParseFailed a) ∨
     (∃ i, runMain ["todo".data, "done".data, "x".data]
        (some ("- [ ] a\n").data) = .invalidId i) ∨
     runMain ["todo".data, "done".data, "x".data]
        (some ("- [ ] a\n").data) = .panicked) :=
  c3_validation_before_mutation "todo".data "done".data ("- [ ] a\n").data
    ["x".data] [⟨"a".data, false⟩] .DONE rfl (Or.inl rfl) rfl (by decide)
    ⟨"x".data, by simp, Or.inl (by decide)⟩

/-! ### Non-mutating paths (C6), `add` (C7), extra arguments (C10) -/

/-- C6: the backing file is never written on a non-mutating path: `list`
leaves the file contents alone (its result never carries a write), `help`
returns before the file is even consulted (the outcome is `helpShown` whether
or not the file can be opened), and an unrecognized first argument fails with
a usage error naming that argument, again without consulting the file. -/
theorem c6_no_write_paths :
    (∀ (prog f : Str) (extras : List Str),
        writtenFile (runMain (prog :: "list".data :: extras) (some f)) = none) ∧
    (∀ (prog : Str) (rest : List Str) (file : Option Str),
        runMain (prog :: "help".data :: rest) file = .helpShown) ∧
    (∀ (prog arg : Str) (rest : List Str) (file : Option Str),
        resolveCommand arg = none →
        runMain (prog :: arg :: rest) file = .invalidCommand arg) := by
  have hlist : resolveCommand ("list".data) = some Command.LIST := rfl
  have hhelp : resolveCommand ("help".data) = some Command.HELP := rfl
  refine ⟨?_, ?_, ?_⟩
  · intro prog f extras
    rcases hp : parse_todos f with e | ts <;>
      simp only [runMain, commandOf_cons, hlist, hp, writtenFile]
  · intro prog rest file
    simp only [runMain, commandOf_cons, hhelp]
  · intro prog arg rest file h
    rw [runMain, commandOf_cons, h]
    rfl

/-- Witness for `c6_no_write_paths`: an unrecognized command fails naming the
offending argument, with no backing file available at all. -/
theorem c6_witness :
    runMain ["prog".data, "foo".data] none = .invalidCommand "foo".data :=
  c6_no_write_paths.2.2 "prog".data "foo".data [] none rfl

/-- C7: `add` with at least one name appends one new not-done item per name,
in argument order, after the unchanged original items, and writes exactly the
serialization of that store back to the file; `add` with no names fails with
the no-items error and writes nothing. -/
theorem c7_add_appends (prog content : Str) (todos : List TodoItem)
    (names : List Str) (hp : parse_todos content = .ok todos) :
    (names ≠ [] →
      runMain (prog :: "add".data :: names) (some content)
        = .success (todos ++ names.map (fun n => TodoItem.mk n false))
            (wirte_todos_to_file
              (todos ++ names.map (fun n => TodoItem.mk n false)))) ∧
    runMain [prog, "add".data] (some content) = .noItemsToAdd ∧
    writtenFile (runMain [prog, "add".data] (some content)) = none := by
  refine ⟨?_, ?_, ?_⟩
  · intro hne
    have hlen3 : ¬ (prog :: "add".data :: names).length < 3 := by
      cases names with
      | nil => exact absurd rfl hne
      | cons _ _ => simp
    have hadd : resolveCommand ("add".data) = some Command.ADD := rfl
    simp only [runMain, commandOf_cons, hadd, hp, hlen3, if_false,
      List.drop_succ_cons, List.drop_zero]
  · have hadd : resolveCommand ("add".data) = some Command.ADD := rfl
    simp only [runMain, commandOf_cons, hadd, hp]
    rfl
  · have hadd : resolveCommand ("add".data) = some Command.ADD := rfl
    simp only [runMain, commandOf_cons, hadd, hp, writtenFile]
    rfl

/-- Witness for `c7_add_appends`: adding one item to a one-item store. -/
theorem c7_witness :
    runMain ["todo".data, "add".data, "x".data] (some ("- [ ] a\n").data)
      = .success ([⟨"a".data, false⟩] ++
            [("x".data : Str)].map (fun n => TodoItem.mk n false))
          (wirte_todos_to_file ([⟨"a".data, false⟩] ++
            [("x".data : Str)].map (fun n => TodoItem.mk n false))) :=
  (c7_add_appends "todo".data ("- [ ] a\n").data [⟨"a".data, false⟩]
    ["x".data] rfl).1 (by simp)

/-- C10: only the first CLI argument selects the command; `list` and `help`
ignore any further arguments — with any extra arguments the whole observable
outcome (output and file state) is the same as with none — and no argument at
all behaves exactly like `list`. -/
theorem c10_extra_args_ignored (prog : Str) (extras : List Str)
    (file : Option Str) :
    runMain (prog :: "list".data :: extras) file
      = runMain [prog, "list".data] file ∧
    runMain (prog :: "help".data :: extras) file
      = runMain [prog, "help".data] file ∧
    runMain [prog] file = runMain [prog, "list".data] file := by
  have hlist : resolveCommand ("list".data) = some Command.LIST := rfl
  have hhelp : resolveCommand ("help".data) = some Command.HELP := rfl
  refine ⟨?_, ?_, ?_⟩
  · simp only [runMain, commandOf_cons, hlist]
  · simp only [runMain, commandOf_cons, hhelp]
  · simp only [runMain, commandOf_cons, hlist]
    rfl

/-- Witness for `c10_extra_args_ignored` at concrete arguments. -/
theorem c10_witness :
    runMain ["p".data, "list".data, "junk".data] (some ("- [ ] a\n").data)
      = runMain ["p".data, "list".data] (some ("- [ ] a\n").data) :=
  (c10_extra_args_ignored "p".data ["junk".data] (some ("- [ ] a\n").data)).1
